import Mathlib

/-!
Shallow embedding of the University Enrolment system
(`<group3>Cmp1-03.py`): the entity model (Student, Subject),
the credential validators, the grade policy, and the three
controllers (StudentController, SubjectController, AdminController).

The persisted record set (a Python dict from email to Student, written
to `students.data` whole) is modelled as an insertion-ordered
association list `Store`.  Randomness (student ids, subject ids and
marks) is modelled by an injected list of candidate values; the
generate-and-retry loops become a search for the first fresh candidate.
Python regex matching with `re.match` and a `$` anchor is modelled
exactly, including the fact that `$` also matches just before a single
trailing newline.
-/

set_option autoImplicit false

namespace UniSys

/-- A character in the class `[a-zA-Z]` of the validators. -/
def isAlphaChar (c : Char) : Bool :=
  (decide ('a' ≤ c) && decide (c ≤ 'z')) || (decide ('A' ≤ c) && decide (c ≤ 'Z'))

/-- A character in the class `\d`, modelled as an ASCII decimal digit. -/
def isDigitChar (c : Char) : Bool :=
  decide ('0' ≤ c) && decide (c ≤ '9')

/-- The character list of the fixed domain suffix `@university.com`. -/
def emailDomain : List Char := String.toList "@university.com"

/-- Full-string match of the regex body `[a-zA-Z]+\.[a-zA-Z]+@university\.com`
(everything of `StudentController._is_valid_email`'s pattern except the `$`
anchor).  Because `.` and `@` are not in `[a-zA-Z]`, greedy runs without
backtracking are exact here. -/
def emailCore (l : List Char) : Bool :=
  match l.dropWhile isAlphaChar with
  | c :: r2 =>
      !(l.takeWhile isAlphaChar).isEmpty && (c == '.') &&
        !(r2.takeWhile isAlphaChar).isEmpty &&
        (r2.dropWhile isAlphaChar == emailDomain)
  | [] => false

/-- Full-string match of the regex body `[A-Z][a-zA-Z]{4,}\d{3,}` of
`StudentController._is_valid_password`'s pattern. -/
def passwordCore (l : List Char) : Bool :=
  match l with
  | [] => false
  | c :: rest =>
      (decide ('A' ≤ c) && decide (c ≤ 'Z')) &&
        decide (4 ≤ (rest.takeWhile isAlphaChar).length) &&
        decide (3 ≤ (rest.dropWhile isAlphaChar).length) &&
        (rest.dropWhile isAlphaChar).all isDigitChar

/-- Python `re.match` of a pattern `core$`: the `$` anchor succeeds at the end
of the string or just before a newline that is the last character. -/
def pyMatchDollar (core : List Char → Bool) (s : String) : Bool :=
  core s.toList ||
    (match s.toList.getLast? with
     | some c => c == '\n' && core s.toList.dropLast
     | none => false)

/-- `StudentController._is_valid_email`:
`re.match(r"^[a-zA-Z]+\.[a-zA-Z]+@university\.com$", email) is not None`. -/
def _is_valid_email (email : String) : Bool :=
  pyMatchDollar emailCore email

/-- `StudentController._is_valid_password`:
`re.match(r"^[A-Z][a-zA-Z]{4,}\d{3,}$", password) is not None`. -/
def _is_valid_password (password : String) : Bool :=
  pyMatchDollar passwordCore password

/-- `Subject.assign_grade`: the if/elif chain on the mark.  Marks may be
fractional (class averages), so the argument is a rational. -/
def assign_grade (mark : ℚ) : String :=
  if mark < 50 then "Z"
  else if 50 ≤ mark ∧ mark < 65 then "P"
  else if 65 ≤ mark ∧ mark < 75 then "C"
  else if 75 ≤ mark ∧ mark < 85 then "D"
  else "HD"

/-- The dict `{'id': ..., 'mark': ..., 'grade': ...}` stored in
`Student.subjects`. -/
structure SubjectInfo where
  id : String
  mark : Int
  grade : String
  deriving DecidableEq, Repr

/-- The `Student` entity: 6-digit id, name, email, password, ordered
subject list. -/
structure Student where
  id : String
  name : String
  email : String
  password : String
  subjects : List SubjectInfo
  deriving DecidableEq, Repr

/-- `Student.calculate_average_mark`: 0 for an empty subject list, else the
unweighted mean of the marks. -/
def calculate_average_mark (st : Student) : ℚ :=
  if st.subjects.isEmpty then 0
  else (st.subjects.map (fun s => (s.mark : ℚ))).sum / (st.subjects.length : ℚ)

/-- `Student.is_passing`: average mark at least 50. -/
def is_passing (st : Student) : Bool :=
  decide (50 ≤ calculate_average_mark st)

/-- `Student.drop_subject`: keep every subject whose id differs. -/
def drop_subject (st : Student) (subject_id : String) : Student :=
  { st with subjects := st.subjects.filter (fun s => !(s.id == subject_id)) }

/-- `Student.enroll_subject`, with the random `Subject()` generation injected
as a list of candidate (id, mark) pairs: `none` when the student already has
4 subjects (and also when every candidate id collides, standing for the
retry loop never returning); otherwise the first candidate with a fresh id
is appended, with its grade derived from its mark. -/
def enroll_subject_student (st : Student) (cands : List (String × Int)) :
    Option (SubjectInfo × Student) :=
  if 4 ≤ st.subjects.length then none
  else
    match cands.find? (fun c => !((st.subjects.map (fun s => s.id)).contains c.1)) with
    | none => none
    | some c =>
        let info : SubjectInfo := ⟨c.1, c.2, assign_grade (c.2 : ℚ)⟩
        some (info, { st with subjects := st.subjects ++ [info] })

/-- The persisted record set: the Python dict from email to Student, as an
insertion-ordered association list. -/
abbrev Store : Type := List (String × Student)

/-- The keys (emails) of the record set, in order. -/
def storeKeys (data : Store) : List String :=
  data.map (fun p => p.1)

/-- All student ids currently in the record set. -/
def storeIds (data : Store) : List String :=
  data.map (fun p => p.2.id)

/-- `data[email]` lookup. -/
def storeFind (data : Store) (email : String) : Option Student :=
  (data.find? (fun p => p.1 == email)).map (fun p => p.2)

/-- `data[email] = student`: replace in place when the key exists (dict
assignment keeps insertion position), append otherwise. -/
def storeInsert : Store → String → Student → Store
  | [], k, v => [(k, v)]
  | p :: rest, k, v =>
      if p.1 == k then (k, v) :: rest else p :: storeInsert rest k v

/-- `del data[email]`: remove the first (for a dict: the only) entry with
that key. -/
def storeErase : Store → String → Store
  | [], _ => []
  | p :: rest, k => if p.1 == k then rest else p :: storeErase rest k

/-- `Database.clear_data` / `AdminController.clear_all_student_data`:
the record set becomes empty. -/
def clear_all_student_data (_data : Store) : Store := []

/-- Outcome of the caller-facing registration flow.  `idExhausted` stands
for the id-generation retry loop never finding a fresh id (with injected
candidates: running out of them); the real loop would spin forever. -/
inductive RegOutcome where
  | invalidEmailFormat
  | invalidPasswordFormat
  | duplicateEmail
  | idExhausted
  | ok (st : Student)
  deriving DecidableEq, Repr

/-- `StudentController.generate_student_id`, with the random draw injected
as a candidate list: the first candidate not already an id in the record
set. -/
def generate_student_id (data : Store) (cands : List String) : Option String :=
  cands.find? (fun c => !((storeIds data).contains c))

/-- `StudentController.register_student`: fails on a duplicate email
(nothing saved); otherwise builds a Student with the generated id and no
subjects and saves it under the email key. -/
def register_student (data : Store) (cands : List String)
    (name email password : String) : RegOutcome × Store :=
  if (storeKeys data).contains email then (.duplicateEmail, data)
  else
    match generate_student_id data cands with
    | none => (.idExhausted, data)
    | some sid =>
        let st : Student := ⟨sid, name, email, password, []⟩
        (.ok st, storeInsert data email st)

/-- The caller-facing registration flow (GUI `submit_registration`, and the
CLI sign-up loop): email format first, then password format, then
`register_student`. -/
def submit_registration (data : Store) (cands : List String)
    (name email password : String) : RegOutcome × Store :=
  if _is_valid_email email = false then (.invalidEmailFormat, data)
  else if _is_valid_password password = false then (.invalidPasswordFormat, data)
  else register_student data cands name email password

/-- What `StudentController.login_student` returns: the stored Student on
success, otherwise one of its message strings. -/
inductive LoginResult where
  | ok (st : Student)
  | msg (m : String)
  deriving DecidableEq, Repr

/-- The string returned both for a format failure and for a wrong
password (source lines 123 and 136 return this same literal). -/
def incorrectFormatMsg : String :=
  "\x1b[91mIncorrect email or password format.\x1b[0m"

/-- The string returned when the email keys no record (source line 128). -/
def notExistMsg : String :=
  "\x1b[93mEmail and password formats acceptable.\x1b[0m\n\x1b[91mStudent does not exist.\x1b[0m"

/-- `StudentController.login_student`. -/
def login_student (data : Store) (email password : String) : LoginResult :=
  if !_is_valid_email email || !_is_valid_password password then
    .msg incorrectFormatMsg
  else
    match storeFind data email with
    | none => .msg notExistMsg
    | some st =>
        if st.password == password then .ok st else .msg incorrectFormatMsg

/-- `StudentController.change_student_password`: an invalid new password
changes nothing; otherwise the student's password is set and the student
is saved under its email key — with no check that the key is present. -/
def change_student_password (data : Store) (st : Student)
    (new_password : String) : Student × Store :=
  if _is_valid_password new_password = false then (st, data)
  else
    let st2 := { st with password := new_password }
    (st2, storeInsert data st2.email st2)

/-- `SubjectController.enroll_subject`: on capacity (or generator
exhaustion) nothing is saved; otherwise the updated student is saved under
its email key — with no check that the key is present. -/
def enroll_subject (data : Store) (st : Student) (cands : List (String × Int)) :
    Option SubjectInfo × Student × Store :=
  match enroll_subject_student st cands with
  | none => (none, st, data)
  | some r => (some r.1, r.2, storeInsert data r.2.email r.2)

/-- `SubjectController.remove_subject`: nothing happens when no enrolled
subject has the id; otherwise the subject is dropped and the student saved
under its email key — with no check that the key is present. -/
def remove_subject (data : Store) (st : Student) (subject_id : String) :
    Student × Store :=
  if !(st.subjects.any (fun s => s.id == subject_id)) then (st, data)
  else
    let st2 := drop_subject st subject_id
    (st2, storeInsert data st2.email st2)

/-- The tuple `(name, id, avg_mark)` appended by the pass/fail partition. -/
def partitionEntry (st : Student) : String × String × ℚ :=
  (st.name, st.id, calculate_average_mark st)

/-- `AdminController.partition_students_pass_fail`: one pass over the
record set, appending each student's tuple to the passed or the failed
list according to `is_passing`. -/
def partition_students_pass_fail (data : Store) :
    List (String × String × ℚ) × List (String × String × ℚ) :=
  data.foldl
    (fun acc p =>
      if is_passing p.2 then (acc.1 ++ [partitionEntry p.2], acc.2)
      else (acc.1, acc.2 ++ [partitionEntry p.2]))
    ([], [])

/-- The tuple `(name, id, grade, avg_mark)` appended by the grade
grouping. -/
def gradeEntry (st : Student) : String × String × String × ℚ :=
  (st.name, st.id, assign_grade (calculate_average_mark st),
    calculate_average_mark st)

/-- The groups dict initialised as `{"HD": [], "D": [], "C": [], "P": [], "Z": []}`. -/
def emptyGroups : List (String × List (String × String × String × ℚ)) :=
  [("HD", []), ("D", []), ("C", []), ("P", []), ("Z", [])]

/-- `groups[grade].append(entry)`.  A missing key would be a Python
`KeyError`; `assign_grade` only produces the five initial keys, so the
fall-through `[]` case is unreachable from `group_students_by_grade`. -/
def appendGroup : List (String × List (String × String × String × ℚ)) →
    String → (String × String × String × ℚ) →
    List (String × List (String × String × String × ℚ))
  | [], _, _ => []
  | g :: rest, k, e =>
      if g.1 == k then (g.1, g.2 ++ [e]) :: rest else g :: appendGroup rest k e

/-- `AdminController.group_students_by_grade`: bucket every student by the
grade of its average mark. -/
def group_students_by_grade (data : Store) :
    List (String × List (String × String × String × ℚ)) :=
  data.foldl
    (fun groups p => appendGroup groups (assign_grade (calculate_average_mark p.2))
      (gradeEntry p.2))
    emptyGroups

/-- `groups[g]` on the grouping result. -/
def findGroup (groups : List (String × List (String × String × String × ℚ)))
    (g : String) : List (String × String × String × ℚ) :=
  ((groups.find? (fun p => p.1 == g)).map (fun p => p.2)).getD []

/-- `AdminController.remove_student`: collect the emails of students with
the given id; delete the first such email and return true, or return false
with the record set untouched. -/
def remove_student (data : Store) (student_id : String) : Bool × Store :=
  match (data.filter (fun p => p.2.id == student_id)).map (fun p => p.1) with
  | [] => (false, data)
  | e :: _ => (true, storeErase data e)

/-- The capacity invariant of §3: every student in the record set has at
most 4 subjects. -/
def storeCapInv (data : Store) : Prop :=
  ∀ p ∈ data, p.2.subjects.length ≤ 4

/-- Modelled from the spec's words (§4.2): a string that "matches exactly
`^[A-Za-z]+\.[A-Za-z]+@university\.com$` (two alphabetic tokens separated
by a literal dot, fixed domain, no digits or extra dots)" — with nothing
else in the string.  Used to compare the code's validator against the
spec's reading. -/
def EmailExactLang (l : List Char) : Prop :=
  ∃ a b : List Char, a ≠ [] ∧ b ≠ [] ∧
    (∀ c ∈ a, isAlphaChar c = true) ∧ (∀ c ∈ b, isAlphaChar c = true) ∧
    l = a ++ '.' :: (b ++ emailDomain)

/-- Modelled from the spec's words (§4.2): a string that "matches exactly
`^[A-Z][A-Za-z]{4,}\d{3,}$`" — one uppercase letter, four or more further
letters, three or more trailing digits, and nothing else. -/
def PasswordExactLang (l : List Char) : Prop :=
  ∃ (c : Char) (bs ds : List Char),
    ('A' ≤ c ∧ c ≤ 'Z') ∧
    (∀ x ∈ bs, isAlphaChar x = true) ∧ 4 ≤ bs.length ∧
    (∀ x ∈ ds, isDigitChar x = true) ∧ 3 ≤ ds.length ∧
    l = c :: (bs ++ ds)

/-- Overwrite the grade stored on every subject of every student through
`f`, leaving ids and marks alone: used to state that the grade grouping
never consults the stored per-subject grades. -/
def mapSubjectGrades (f : String → String) (data : Store) : Store :=
  data.map (fun p =>
    (p.1, { p.2 with subjects := p.2.subjects.map (fun s => { s with grade := f s.grade }) }))

/-- A concrete registered student used by the concrete-input theorems. -/
def cexStudent : Student :=
  ⟨"000001", "Jane", "a.b@university.com", "Abcde123", []⟩

/-- A record set holding just `cexStudent`. -/
def cexStore : Store := [("a.b@university.com", cexStudent)]

/-- A student with two subjects marked 40 and 60 (average 50). -/
def st4060 : Student :=
  ⟨"000002", "Bob", "b.c@university.com", "Abcde123",
    [⟨"001", 40, "Z"⟩, ⟨"002", 60, "P"⟩]⟩

/-- A student already enrolled in 4 subjects. -/
def stFour : Student :=
  ⟨"000003", "Eve", "e.f@university.com", "Abcde123",
    [⟨"001", 70, "C"⟩, ⟨"002", 80, "D"⟩, ⟨"003", 90, "HD"⟩, ⟨"004", 40, "Z"⟩]⟩

/-- Two distinct records whose students share the id `"000001"`: such a
record set is reachable (remove a student, register a fresh one that draws
the freed id, then let the stale reference be saved back). -/
def dupIdStore : Store :=
  [("a.b@university.com", cexStudent),
   ("c.d@university.com", ⟨"000001", "Carl", "c.d@university.com", "Abcde123", []⟩)]

/-! ## Helper lemmas about greedy character runs -/

theorem takeWhile_all_append {α : Type} (p : α → Bool) (a : List α) (x : α)
    (r : List α) (ha : ∀ c ∈ a, p c = true) (hx : p x = false) :
    (a ++ x :: r).takeWhile p = a := by
  induction a with
  | nil => simp [List.takeWhile_cons, hx]
  | cons c cs ih =>
      have hc : p c = true := ha c (by simp)
      simp only [List.cons_append, List.takeWhile_cons, hc, if_true]
      rw [ih (fun d hd => ha d (by simp [hd]))]

theorem dropWhile_all_append {α : Type} (p : α → Bool) (a : List α) (x : α)
    (r : List α) (ha : ∀ c ∈ a, p c = true) (hx : p x = false) :
    (a ++ x :: r).dropWhile p = x :: r := by
  induction a with
  | nil => simp [List.dropWhile_cons, hx]
  | cons c cs ih =>
      have hc : p c = true := ha c (by simp)
      simp only [List.cons_append, List.dropWhile_cons, hc, if_true]
      exact ih (fun d hd => ha d (by simp [hd]))

theorem digit_not_alpha (c : Char) (h : isDigitChar c = true) :
    isAlphaChar c = false := by
  unfold isDigitChar at h
  rw [Bool.and_eq_true, decide_eq_true_eq, decide_eq_true_eq] at h
  have h1 : c < 'a' := lt_of_le_of_lt h.2 (by decide)
  have h2 : c < 'A' := lt_of_le_of_lt h.2 (by decide)
  have d1 : decide ('a' ≤ c) = false := decide_eq_false (not_le.mpr h1)
  have d2 : decide ('A' ≤ c) = false := decide_eq_false (not_le.mpr h2)
  simp [isAlphaChar, d1, d2]

theorem isEmpty_false_of_ne_nil {α : Type} {l : List α} (h : l ≠ []) :
    l.isEmpty = false := by
  cases l with
  | nil => exact absurd rfl h
  | cons _ _ => rfl

theorem ne_nil_of_isEmpty_false {α : Type} {l : List α} (h : l.isEmpty = false) :
    l ≠ [] := by
  cases l with
  | nil => simp at h
  | cons _ _ => simp

/-! ## The validators compute exactly the regex languages (up to the `$`
trailing-newline behaviour) -/

theorem emailCore_iff (l : List Char) : emailCore l = true ↔ EmailExactLang l := by
  constructor
  · intro h
    unfold emailCore at h
    rcases hd : l.dropWhile isAlphaChar with _ | ⟨c, r2⟩
    · rw [hd] at h
      simp at h
    · rw [hd] at h
      simp only [Bool.and_eq_true, Bool.not_eq_true', beq_iff_eq] at h
      obtain ⟨⟨⟨h1, h2⟩, h3⟩, h4⟩ := h
      refine ⟨l.takeWhile isAlphaChar, r2.takeWhile isAlphaChar,
        ne_nil_of_isEmpty_false h1, ne_nil_of_isEmpty_false h3,
        fun x hx => List.mem_takeWhile_imp hx,
        fun x hx => List.mem_takeWhile_imp hx, ?_⟩
      have hl : l = l.takeWhile isAlphaChar ++ (c :: r2) := by
        rw [← hd, List.takeWhile_append_dropWhile]
      have hr : r2 = r2.takeWhile isAlphaChar ++ emailDomain := by
        rw [← h4, List.takeWhile_append_dropWhile]
      rw [← hr, ← h2]
      exact hl
  · rintro ⟨a, b, ha, hb, haa, hbb, rfl⟩
    have hdot : isAlphaChar '.' = false := by decide
    have hat : isAlphaChar '@' = false := by decide
    have hdom : emailDomain = '@' :: String.toList "university.com" := rfl
    have ht : (a ++ '.' :: (b ++ emailDomain)).takeWhile isAlphaChar = a :=
      takeWhile_all_append _ _ _ _ haa hdot
    have hd2 : (a ++ '.' :: (b ++ emailDomain)).dropWhile isAlphaChar =
        '.' :: (b ++ emailDomain) :=
      dropWhile_all_append _ _ _ _ haa hdot
    have hbt : (b ++ emailDomain).takeWhile isAlphaChar = b := by
      rw [hdom]
      exact takeWhile_all_append _ _ _ _ hbb hat
    have hbd : (b ++ emailDomain).dropWhile isAlphaChar = emailDomain := by
      rw [hdom]
      exact dropWhile_all_append _ _ _ _ hbb hat
    unfold emailCore
    rw [hd2]
    simp [ht, hbt, hbd, isEmpty_false_of_ne_nil ha, isEmpty_false_of_ne_nil hb]

theorem passwordCore_iff (l : List Char) :
    passwordCore l = true ↔ PasswordExactLang l := by
  constructor
  · intro h
    cases l with
    | nil => simp [passwordCore] at h
    | cons c rest =>
        unfold passwordCore at h
        simp only [Bool.and_eq_true, decide_eq_true_eq, List.all_eq_true] at h
        obtain ⟨⟨⟨⟨hA, hZ⟩, hbl⟩, hrl⟩, hall⟩ := h
        refine ⟨c, rest.takeWhile isAlphaChar, rest.dropWhile isAlphaChar,
          ⟨hA, hZ⟩, fun x hx => List.mem_takeWhile_imp hx, hbl,
          fun x hx => hall x hx, hrl, by rw [List.takeWhile_append_dropWhile]⟩
  · rintro ⟨c, bs, ds, ⟨hA, hZ⟩, hbs, hblen, hds, hdlen, rfl⟩
    obtain ⟨d, ds', rfl⟩ : ∃ d ds', ds = d :: ds' := by
      cases ds with
      | nil => simp at hdlen
      | cons d ds' => exact ⟨d, ds', rfl⟩
    have hd : isDigitChar d = true := hds d (by simp)
    have hna : isAlphaChar d = false := digit_not_alpha d hd
    have ht : (bs ++ d :: ds').takeWhile isAlphaChar = bs :=
      takeWhile_all_append _ _ _ _ hbs hna
    have hdw : (bs ++ d :: ds').dropWhile isAlphaChar = d :: ds' :=
      dropWhile_all_append _ _ _ _ hbs hna
    show (decide ('A' ≤ c) && decide (c ≤ 'Z') &&
        decide (4 ≤ ((bs ++ d :: ds').takeWhile isAlphaChar).length) &&
        decide (3 ≤ ((bs ++ d :: ds').dropWhile isAlphaChar).length) &&
        ((bs ++ d :: ds').dropWhile isAlphaChar).all isDigitChar) = true
    rw [ht, hdw]
    simp only [Bool.and_eq_true, decide_eq_true_eq, List.all_eq_true]
    exact ⟨⟨⟨⟨hA, hZ⟩, hblen⟩, by simpa using hdlen⟩, fun x hx => hds x hx⟩

theorem pyMatchDollar_iff (core : List Char → Bool) (s : String) :
    pyMatchDollar core s = true ↔
      (core s.toList = true ∨
        (s.toList.getLast? = some '\n' ∧ core s.toList.dropLast = true)) := by
  unfold pyMatchDollar
  rcases h : s.toList.getLast? with _ | c
  · simp
  · simp only [Bool.or_eq_true, Bool.and_eq_true, beq_iff_eq, Option.some.injEq]

theorem emailLang_getLast {l : List Char} (h : EmailExactLang l) :
    l.getLast? = some 'm' := by
  obtain ⟨a, b, _, _, _, _, rfl⟩ := h
  have hsp : a ++ '.' :: (b ++ emailDomain) = (a ++ '.' :: b) ++ emailDomain := by
    simp
  rw [hsp, List.getLast?_append_of_ne_nil _ (by decide)]
  decide

theorem passwordLang_getLast {l : List Char} (h : PasswordExactLang l) :
    ∃ d, l.getLast? = some d ∧ isDigitChar d = true := by
  obtain ⟨c, bs, ds, _, _, _, hds, hdlen, rfl⟩ := h
  have hne : ds ≠ [] := by
    intro h0
    rw [h0] at hdlen
    simp at hdlen
  have hsp : c :: (bs ++ ds) = (c :: bs) ++ ds := by simp
  rw [hsp, List.getLast?_append_of_ne_nil _ hne]
  exact ⟨ds.getLast hne, List.getLast?_eq_getLast ds hne,
    hds _ (List.getLast_mem hne)⟩

/-! ## Claims C5 and C6: the credential validators -/

/-- Claim C5, amended: `_is_valid_email s` is true iff `s` is exactly two
nonempty alphabetic tokens separated by a literal dot followed by
`@university.com`, or such a match followed by one trailing newline
(Python's `$` also matches just before a final newline); it accepts
`"john.smith@university.com"` and rejects `"johnsmith@university.com"`,
`"john.smith@other.com"`, `"John.Smith123@university.com"`. -/
theorem email_validator_exact :
    (∀ s : String, _is_valid_email s = true ↔
      (EmailExactLang s.toList ∨
        (s.toList.getLast? = some '\n' ∧ EmailExactLang s.toList.dropLast))) ∧
    _is_valid_email "john.smith@university.com" = true ∧
    _is_valid_email "johnsmith@university.com" = false ∧
    _is_valid_email "john.smith@other.com" = false ∧
    _is_valid_email "John.Smith123@university.com" = false := by
  refine ⟨fun s => ?_, by decide, by decide, by decide, by decide⟩
  rw [show _is_valid_email s = pyMatchDollar emailCore s from rfl,
    pyMatchDollar_iff]
  exact or_congr (emailCore_iff _)
    (and_congr_right fun _ => emailCore_iff _)

/-- Claim C5 counterexample: the validator accepts
`"john.smith@university.com\n"`, a string that does not consist solely of
the two tokens, dot and domain — the trailing newline is extra, so the
claimed "nothing else in the string" iff fails. -/
theorem email_validator_trailing_newline :
    _is_valid_email "john.smith@university.com\n" = true ∧
    ¬ EmailExactLang (String.toList "john.smith@university.com\n") := by
  refine ⟨by decide, fun h => ?_⟩
  have h1 := emailLang_getLast h
  have h2 : (String.toList "john.smith@university.com\n").getLast? =
      some '\n' := by decide
  rw [h1] at h2
  exact absurd h2 (by decide)

/-- Claim C6, amended: `_is_valid_password s` is true iff `s` is exactly
one uppercase letter, four or more further letters and three or more
trailing digits, or such a match followed by one trailing newline
(Python's `$` also matches just before a final newline); it accepts
`"Abcde123"` and rejects `"abcde123"`, `"Abc123"`, `"Abcdefg12"`. -/
theorem password_validator_exact :
    (∀ s : String, _is_valid_password s = true ↔
      (PasswordExactLang s.toList ∨
        (s.toList.getLast? = some '\n' ∧ PasswordExactLang s.toList.dropLast))) ∧
    _is_valid_password "Abcde123" = true ∧
    _is_valid_password "abcde123" = false ∧
    _is_valid_password "Abc123" = false ∧
    _is_valid_password "Abcdefg12" = false := by
  refine ⟨fun s => ?_, by decide, by decide, by decide, by decide⟩
  rw [show _is_valid_password s = pyMatchDollar passwordCore s from rfl,
    pyMatchDollar_iff]
  exact or_congr (passwordCore_iff _)
    (and_congr_right fun _ => passwordCore_iff _)

/-- Claim C6 counterexample: the validator accepts `"Abcde123\n"`, whose
final character is a newline, not a digit — so the claimed "nothing else"
iff fails. -/
theorem password_validator_trailing_newline :
    _is_valid_password "Abcde123\n" = true ∧
    ¬ PasswordExactLang (String.toList "Abcde123\n") := by
  refine ⟨by decide, fun h => ?_⟩
  obtain ⟨d, hd, hdig⟩ := passwordLang_getLast h
  have h2 : (String.toList "Abcde123\n").getLast? = some '\n' := by decide
  rw [hd] at h2
  have : d = '\n' := by injection h2
  rw [this] at hdig
  exact absurd hdig (by decide)

/-! ## Claim C4: the grade policy -/

theorem assign_grade_char (q : ℚ) :
    (assign_grade q = "Z" ↔ q < 50) ∧
    (assign_grade q = "P" ↔ 50 ≤ q ∧ q < 65) ∧
    (assign_grade q = "C" ↔ 65 ≤ q ∧ q < 75) ∧
    (assign_grade q = "D" ↔ 75 ≤ q ∧ q < 85) ∧
    (assign_grade q = "HD" ↔ 85 ≤ q) := by
  unfold assign_grade
  split_ifs with h1 h2 h3 h4
  · exact ⟨⟨fun _ => h1, fun _ => rfl⟩,
      ⟨fun h => absurd h (by decide), fun h => absurd h.1 (not_le.mpr h1)⟩,
      ⟨fun h => absurd h (by decide), fun h => absurd h.1 (not_le.mpr (by linarith))⟩,
      ⟨fun h => absurd h (by decide), fun h => absurd h.1 (not_le.mpr (by linarith))⟩,
      ⟨fun h => absurd h (by decide), fun h => absurd h (not_le.mpr (by linarith))⟩⟩
  · obtain ⟨h2a, h2b⟩ := h2
    exact ⟨⟨fun h => absurd h (by decide), fun h => absurd h h1⟩,
      ⟨fun _ => ⟨h2a, h2b⟩, fun _ => rfl⟩,
      ⟨fun h => absurd h (by decide), fun h => absurd h.1 (not_le.mpr (by linarith))⟩,
      ⟨fun h => absurd h (by decide), fun h => absurd h.1 (not_le.mpr (by linarith))⟩,
      ⟨fun h => absurd h (by decide), fun h => absurd h (not_le.mpr (by linarith))⟩⟩
  · obtain ⟨h3a, h3b⟩ := h3
    exact ⟨⟨fun h => absurd h (by decide), fun h => absurd h h1⟩,
      ⟨fun h => absurd h (by decide), fun h => absurd h h2⟩,
      ⟨fun _ => ⟨h3a, h3b⟩, fun _ => rfl⟩,
      ⟨fun h => absurd h (by decide), fun h => absurd h.1 (not_le.mpr (by linarith))⟩,
      ⟨fun h => absurd h (by decide), fun h => absurd h (not_le.mpr (by linarith))⟩⟩
  · obtain ⟨h4a, h4b⟩ := h4
    exact ⟨⟨fun h => absurd h (by decide), fun h => absurd h h1⟩,
      ⟨fun h => absurd h (by decide), fun h => absurd h h2⟩,
      ⟨fun h => absurd h (by decide), fun h => absurd h h3⟩,
      ⟨fun _ => ⟨h4a, h4b⟩, fun _ => rfl⟩,
      ⟨fun h => absurd h (by decide), fun h => absurd h (not_le.mpr (by linarith))⟩⟩
  · push_neg at h1 h2 h3 h4
    have hq : 85 ≤ q := h4 (h3 (h2 h1))
    exact ⟨⟨fun h => absurd h (by decide), fun h => absurd h (not_lt.mpr h1)⟩,
      ⟨fun h => absurd h (by decide), fun h => absurd h.2 (not_lt.mpr (h2 h1))⟩,
      ⟨fun h => absurd h (by decide), fun h => absurd h.2 (not_lt.mpr (h3 (h2 h1)))⟩,
      ⟨fun h => absurd h (by decide), fun h => absurd h.2 (not_lt.mpr hq)⟩,
      ⟨fun _ => hq, fun _ => rfl⟩⟩

/-- Claim C4: `assign_grade` is a pure total function on numeric
(fractional or integral) marks with thresholds `<50 → Z`, `[50,65) → P`,
`[65,75) → C`, `[75,85) → D`, `[85,∞) → HD`, and in particular takes the
specified values at the eight boundary marks. -/
theorem assign_grade_thresholds :
    (∀ q : ℚ,
      (assign_grade q = "Z" ↔ q < 50) ∧
      (assign_grade q = "P" ↔ 50 ≤ q ∧ q < 65) ∧
      (assign_grade q = "C" ↔ 65 ≤ q ∧ q < 75) ∧
      (assign_grade q = "D" ↔ 75 ≤ q ∧ q < 85) ∧
      (assign_grade q = "HD" ↔ 85 ≤ q)) ∧
    assign_grade (499 / 10) = "Z" ∧ assign_grade 50 = "P" ∧
    assign_grade (649 / 10) = "P" ∧ assign_grade 65 = "C" ∧
    assign_grade (749 / 10) = "C" ∧ assign_grade 75 = "D" ∧
    assign_grade (849 / 10) = "D" ∧ assign_grade 85 = "HD" :=
  ⟨fun q => assign_grade_char q,
    (assign_grade_char _).1.mpr (by norm_num),
    (assign_grade_char _).2.1.mpr (by norm_num),
    (assign_grade_char _).2.1.mpr (by norm_num),
    (assign_grade_char _).2.2.1.mpr (by norm_num),
    (assign_grade_char _).2.2.1.mpr (by norm_num),
    (assign_grade_char _).2.2.2.1.mpr (by norm_num),
    (assign_grade_char _).2.2.2.1.mpr (by norm_num),
    (assign_grade_char _).2.2.2.2.mpr (by norm_num)⟩

/-! ## Claim C2: authentication -/

/-- Claim C2, amended: the format check takes precedence, a missing email
gives the not-found message, and a stored password differing from the
supplied one gives back the *same* "Incorrect email or password format."
message as a format failure — not a distinct InvalidCredentials error;
on success the stored student is returned. -/
theorem login_student_contract :
    ∀ (data : Store) (email password : String),
      (¬(_is_valid_email email = true ∧ _is_valid_password password = true) →
        login_student data email password = .msg incorrectFormatMsg) ∧
      (_is_valid_email email = true → _is_valid_password password = true →
        storeFind data email = none →
        login_student data email password = .msg notExistMsg) ∧
      (∀ st : Student, _is_valid_email email = true →
        _is_valid_password password = true →
        storeFind data email = some st → st.password = password →
        login_student data email password = .ok st) ∧
      (∀ st : Student, _is_valid_email email = true →
        _is_valid_password password = true →
        storeFind data email = some st → st.password ≠ password →
        login_student data email password = .msg incorrectFormatMsg) := by
  intro data email password
  refine ⟨?_, ?_, ?_, ?_⟩
  · intro h
    rcases not_and_or.mp h with h' | h'
    · have hb : _is_valid_email email = false := by
        cases hE : _is_valid_email email
        · rfl
        · exact absurd hE h'
      simp [login_student, hb]
    · have hb : _is_valid_password password = false := by
        cases hP : _is_valid_password password
        · rfl
        · exact absurd hP h'
      simp [login_student, hb]
  · intro he hp hf
    simp [login_student, he, hp, hf]
  · intro st he hp hf hpw
    simp [login_student, he, hp, hf, hpw]
  · intro st he hp hf hpw
    simp [login_student, he, hp, hf, hpw]

/-- Witness for C2: on the concrete store, a valid login returns the
stored student. -/
theorem login_student_contract_witness :
    login_student cexStore "a.b@university.com" "Abcde123" = .ok cexStudent :=
  (login_student_contract cexStore "a.b@university.com" "Abcde123").2.2.1
    cexStudent (by decide) (by decide) (by decide) (by decide)

/-- Claim C2 counterexample: with a registered student whose password is
`"Abcde123"`, supplying the well-formatted wrong password `"Wrongpw123"`
produces *exactly the same* error value as a malformed input does — the
code has no distinct InvalidCredentials error. -/
theorem login_student_error_collision :
    login_student cexStore "a.b@university.com" "Wrongpw123" =
        .msg incorrectFormatMsg ∧
    login_student cexStore "bad" "bad" = .msg incorrectFormatMsg ∧
    _is_valid_email "a.b@university.com" = true ∧
    _is_valid_password "Wrongpw123" = true ∧
    storeFind cexStore "a.b@university.com" = some cexStudent ∧
    cexStudent.password ≠ "Wrongpw123" := by
  refine ⟨by decide, by decide, by decide, by decide, by decide, by decide⟩

/-! ## Store helper lemmas -/

theorem contains_iff_mem {l : List String} {a : String} :
    l.contains a = true ↔ a ∈ l := by
  rw [List.contains_iff_exists_mem_beq]
  simp [beq_iff_eq]

theorem contains_false_iff {l : List String} {a : String} :
    l.contains a = false ↔ a ∉ l := by
  rw [← Bool.not_eq_true, contains_iff_mem]

theorem storeInsert_of_not_mem (data : Store) (k : String) (v : Student)
    (h : k ∉ storeKeys data) : storeInsert data k v = data ++ [(k, v)] := by
  induction data with
  | nil => rfl
  | cons p rest ih =>
      simp only [storeKeys, List.map_cons, List.mem_cons] at h
      push_neg at h
      obtain ⟨h1, h2⟩ := h
      have hb : (p.1 == k) = false := beq_eq_false_iff_ne.mpr (fun he => h1 he.symm)
      simp only [storeInsert, hb, Bool.false_eq_true, if_false, List.cons_append,
        List.cons.injEq, true_and]
      exact ih h2

theorem storeFind_insert (data : Store) (k : String) (v : Student) :
    storeFind (storeInsert data k v) k = some v := by
  induction data with
  | nil => simp [storeInsert, storeFind, List.find?_cons]
  | cons p rest ih =>
      cases hb : (p.1 == k) with
      | true => simp [storeInsert, hb, storeFind, List.find?_cons]
      | false =>
          simp only [storeInsert, hb, Bool.false_eq_true, if_false]
          simp only [storeFind, List.find?_cons, hb]
          exact ih

theorem generate_student_id_fresh {data : Store} {cands : List String}
    {sid : String} (h : generate_student_id data cands = some sid) :
    sid ∉ storeIds data := by
  have h2 := List.find?_some h
  rw [Bool.not_eq_true'] at h2
  exact contains_false_iff.mp h2

/-! ## Claim C1: registration -/

/-- Claim C1: in the caller-facing registration flow, an invalid email
format fails with InvalidEmailFormat, then an invalid password format with
InvalidPasswordFormat (format checks precede the duplicate check); a
duplicate email fails with DuplicateEmail leaving the store unchanged with
exactly one record under that email; otherwise a Student with zero
subjects and a freshly generated id distinct from every stored id is
persisted under the email key. -/
theorem register_student_contract :
    ∀ (data : Store) (cands : List String) (name email password : String),
      (_is_valid_email email = false →
        submit_registration data cands name email password =
          (.invalidEmailFormat, data)) ∧
      (_is_valid_email email = true → _is_valid_password password = false →
        submit_registration data cands name email password =
          (.invalidPasswordFormat, data)) ∧
      (_is_valid_email email = true → _is_valid_password password = true →
        email ∈ storeKeys data →
        submit_registration data cands name email password =
          (.duplicateEmail, data) ∧
        ((storeKeys data).Nodup → List.count email (storeKeys data) = 1)) ∧
      (∀ sid : String, _is_valid_email email = true →
        _is_valid_password password = true →
        email ∉ storeKeys data → generate_student_id data cands = some sid →
        submit_registration data cands name email password =
          (.ok ⟨sid, name, email, password, []⟩,
            data ++ [(email, ⟨sid, name, email, password, []⟩)]) ∧
        sid ∉ storeIds data ∧
        storeFind (submit_registration data cands name email password).2 email =
          some ⟨sid, name, email, password, []⟩) := by
  intro data cands name email password
  refine ⟨?_, ?_, ?_, ?_⟩
  · intro he
    simp [submit_registration, he]
  · intro he hp
    simp [submit_registration, he, hp]
  · intro he hp hm
    refine ⟨?_, fun hn => List.count_eq_one_of_mem hn hm⟩
    simp [submit_registration, he, hp, register_student,
      contains_iff_mem.mpr hm, hm]
  · intro sid he hp hnm hgen
    have hc : (storeKeys data).contains email = false := contains_false_iff.mpr hnm
    have heq : submit_registration data cands name email password =
        (.ok ⟨sid, name, email, password, []⟩,
          data ++ [(email, ⟨sid, name, email, password, []⟩)]) := by
      simp [submit_registration, he, hp, register_student, hc, hgen, hnm,
        storeInsert_of_not_mem data email _ hnm]
    refine ⟨heq, generate_student_id_fresh hgen, ?_⟩
    rw [heq, ← storeInsert_of_not_mem data email _ hnm]
    exact storeFind_insert data email _

/-- Witness for C1: registering into the empty store persists the new
zero-subject student under its email with the generated id. -/
theorem register_student_contract_witness :
    submit_registration [] ["123456"] "Ann" "a.b@university.com" "Abcde123" =
      (.ok ⟨"123456", "Ann", "a.b@university.com", "Abcde123", []⟩,
        [("a.b@university.com",
          ⟨"123456", "Ann", "a.b@university.com", "Abcde123", []⟩)]) := by
  have h := (register_student_contract [] ["123456"] "Ann" "a.b@university.com"
    "Abcde123").2.2.2 "123456" (by decide) (by decide) (by decide) (by decide)
  simpa using h.1

/-! ## Claim C3: enrollment capacity and the 4-subject invariant -/

theorem mem_storeInsert {data : Store} {k : String} {v : Student}
    {p : String × Student} (hp : p ∈ storeInsert data k v) :
    p = (k, v) ∨ p ∈ data := by
  induction data with
  | nil =>
      simp [storeInsert] at hp
      exact Or.inl hp
  | cons q rest ih =>
      cases hb : (q.1 == k) with
      | true =>
          simp [storeInsert, hb] at hp
          rcases hp with h | h
          · exact Or.inl h
          · exact Or.inr (List.mem_cons_of_mem _ h)
      | false =>
          simp [storeInsert, hb] at hp
          rcases hp with h | h
          · exact Or.inr (by simp [h])
          · rcases ih h with h' | h'
            · exact Or.inl h'
            · exact Or.inr (List.mem_cons_of_mem _ h')

theorem mem_storeErase {data : Store} {k : String} {p : String × Student}
    (hp : p ∈ storeErase data k) : p ∈ data := by
  induction data with
  | nil => simp [storeErase] at hp
  | cons q rest ih =>
      cases hb : (q.1 == k) with
      | true =>
          simp [storeErase, hb] at hp
          exact List.mem_cons_of_mem _ hp
      | false =>
          simp [storeErase, hb] at hp
          rcases hp with h | h
          · exact by simp [h]
          · exact List.mem_cons_of_mem _ (ih h)

theorem capInv_insert {data : Store} {k : String} {v : Student}
    (hd : storeCapInv data) (hv : v.subjects.length ≤ 4) :
    storeCapInv (storeInsert data k v) := by
  intro p hp
  rcases mem_storeInsert hp with h | h
  · rw [h]
    exact hv
  · exact hd p h

theorem enroll_subject_student_some {st : Student}
    {cands : List (String × Int)} {info : SubjectInfo} {st2 : Student}
    (h : enroll_subject_student st cands = some (info, st2)) :
    st2.email = st.email ∧ st2.subjects.length = st.subjects.length + 1 ∧
      st.subjects.length < 4 := by
  unfold enroll_subject_student at h
  by_cases hlen : 4 ≤ st.subjects.length
  · simp [hlen] at h
  · rcases hf : cands.find?
        (fun c => !((st.subjects.map (fun s => s.id)).contains c.1)) with _ | c
    · rw [if_neg hlen, hf] at h
      simp at h
    · rw [if_neg hlen, hf] at h
      simp only [Option.some.injEq, Prod.mk.injEq] at h
      obtain ⟨_, h2⟩ := h
      rw [← h2]
      exact ⟨rfl, by simp, by omega⟩

/-- Claim C3: enrolling on a student with exactly 4 subjects fails (no
subject returned), leaves the student's 4 subjects alone and persists
nothing; and every operation of the system preserves the invariant that
each stored student has at most 4 subjects. -/
theorem enrollment_capacity_invariant :
    ∀ (data : Store) (st : Student) (subcands : List (String × Int))
      (idcands : List String) (name email password newpw sid : String),
      (st.subjects.length = 4 →
        enroll_subject data st subcands = (none, st, data)) ∧
      (storeCapInv data →
        storeCapInv (submit_registration data idcands name email password).2) ∧
      (storeCapInv data → st.subjects.length ≤ 4 →
        storeCapInv (change_student_password data st newpw).2) ∧
      (storeCapInv data → st.subjects.length ≤ 4 →
        storeCapInv (enroll_subject data st subcands).2.2) ∧
      (storeCapInv data → st.subjects.length ≤ 4 →
        storeCapInv (remove_subject data st sid).2) ∧
      (storeCapInv data → storeCapInv (remove_student data sid).2) ∧
      storeCapInv (clear_all_student_data data) := by
  intro data st subcands idcands name email password newpw sid
  refine ⟨?_, ?_, ?_, ?_, ?_, ?_, ?_⟩
  · intro h4
    have hle : 4 ≤ st.subjects.length := by omega
    simp [enroll_subject, enroll_subject_student, hle]
  · intro hd
    unfold submit_registration register_student
    split_ifs with h1 h2 h3
    · exact hd
    · exact hd
    · exact hd
    · rcases hgen : generate_student_id data idcands with _ | sid2
      · exact hd
      · exact capInv_insert hd (by simp)
  · intro hd hst
    unfold change_student_password
    split_ifs with h1
    · exact hd
    · exact capInv_insert hd (by simpa using hst)
  · intro hd hst
    rcases henr : enroll_subject_student st subcands with _ | r
    · simp [enroll_subject, henr]
      exact hd
    · obtain ⟨info, st2⟩ := r
      have hlen := (enroll_subject_student_some henr).2
      simp [enroll_subject, henr]
      exact capInv_insert hd (by omega)
  · intro hd hst
    unfold remove_subject
    split_ifs with h1
    · exact hd
    · exact capInv_insert hd
        (le_trans (List.length_filter_le _ _) hst)
  · intro hd
    unfold remove_student
    split
    · exact hd
    · exact fun p hp => hd p (mem_storeErase hp)
  · intro p hp
    simp [clear_all_student_data] at hp

/-- Witness for C3: on a concrete 4-subject student the enrollment is
refused with nothing persisted, and the invariant facts hold on concrete
stores. -/
theorem enrollment_capacity_invariant_witness :
    enroll_subject [] stFour [("001", 70)] = (none, stFour, []) ∧
    stFour.subjects.length = 4 ∧
    storeCapInv (clear_all_student_data []) := by
  refine ⟨?_, by decide, ?_⟩
  · exact (enrollment_capacity_invariant [] stFour [("001", 70)] [] "" "" "" ""
      "").1 (by decide)
  · exact (enrollment_capacity_invariant [] stFour [("001", 70)] [] "" "" "" ""
      "").2.2.2.2.2.2

/-! ## Claim C7: pass/fail partition -/

theorem partition_fold (data : Store) (a b : List (String × String × ℚ)) :
    data.foldl
      (fun acc p =>
        if is_passing p.2 then (acc.1 ++ [partitionEntry p.2], acc.2)
        else (acc.1, acc.2 ++ [partitionEntry p.2]))
      (a, b) =
    (a ++ (data.filter (fun p => is_passing p.2)).map
        (fun p => partitionEntry p.2),
     b ++ (data.filter (fun p => !is_passing p.2)).map
        (fun p => partitionEntry p.2)) := by
  induction data generalizing a b with
  | nil => simp
  | cons q rest ih =>
      cases hq : is_passing q.2 with
      | true => simp [List.foldl_cons, hq, ih, List.filter_cons]
      | false => simp [List.foldl_cons, hq, ih, List.filter_cons]

theorem partition_eq (data : Store) :
    partition_students_pass_fail data =
      ((data.filter (fun p => is_passing p.2)).map (fun p => partitionEntry p.2),
       (data.filter (fun p => !is_passing p.2)).map
         (fun p => partitionEntry p.2)) := by
  unfold partition_students_pass_fail
  rw [partition_fold]
  simp

/-- Claim C7: the partition puts a student's entry in the passed list
exactly when its unweighted average mark is at least 50, students with no
subjects (average 0) land in the failed list, and the concrete student
with marks 40 and 60 (average exactly 50) is placed in passed. -/
theorem partition_pass_fail_spec :
    ∀ data : Store,
      (partition_students_pass_fail data).1 =
        (data.filter (fun p => is_passing p.2)).map
          (fun p => partitionEntry p.2) ∧
      (partition_students_pass_fail data).2 =
        (data.filter (fun p => !is_passing p.2)).map
          (fun p => partitionEntry p.2) ∧
      (∀ st : Student, is_passing st = true ↔
        50 ≤ calculate_average_mark st) ∧
      (∀ p ∈ data, 50 ≤ calculate_average_mark p.2 →
        partitionEntry p.2 ∈ (partition_students_pass_fail data).1) ∧
      (∀ p ∈ data, p.2.subjects = [] →
        calculate_average_mark p.2 = 0 ∧
        partitionEntry p.2 ∈ (partition_students_pass_fail data).2) ∧
      partition_students_pass_fail [(st4060.email, st4060)] =
        ([("Bob", "000002", 50)], []) := by
  intro data
  have hiff : ∀ st : Student, is_passing st = true ↔
      50 ≤ calculate_average_mark st := by
    intro st
    simp [is_passing]
  have havg : calculate_average_mark st4060 = 50 := by
    simp [calculate_average_mark, st4060]
    norm_num
  refine ⟨?_, ?_, hiff, ?_, ?_, ?_⟩
  · rw [partition_eq]
  · rw [partition_eq]
  · intro p hp hge
    rw [partition_eq]
    exact List.mem_map.mpr ⟨p, List.mem_filter.mpr ⟨hp, (hiff p.2).mpr hge⟩, rfl⟩
  · intro p hp hsub
    have h0 : calculate_average_mark p.2 = 0 := by
      simp [calculate_average_mark, hsub]
    have hnp : is_passing p.2 = false := by
      rw [← Bool.not_eq_true, hiff, h0]
      norm_num
    refine ⟨h0, ?_⟩
    rw [partition_eq]
    exact List.mem_map.mpr ⟨p, List.mem_filter.mpr ⟨hp, by simp [hnp]⟩, rfl⟩
  · have hpass : is_passing st4060 = true := by
      rw [hiff, havg]
    have hsingle : partition_students_pass_fail [(st4060.email, st4060)] =
        ([partitionEntry st4060], []) := by
      rw [partition_eq]
      simp [hpass]
    rw [hsingle,
      show partitionEntry st4060 =
        (st4060.name, st4060.id, calculate_average_mark st4060) from rfl, havg]
    rfl

/-- Witness for C7: the concrete average-50 student is a member of the
passed list of its singleton store. -/
theorem partition_pass_fail_spec_witness :
    partitionEntry st4060 ∈
      (partition_students_pass_fail [(st4060.email, st4060)]).1 := by
  have h := (partition_pass_fail_spec [(st4060.email, st4060)]).2.2.2.1
    (st4060.email, st4060) (by simp)
  refine h ?_
  simp [calculate_average_mark, st4060]
  norm_num

/-! ## Claim C8: grade grouping -/

theorem assign_grade_mem (q : ℚ) :
    assign_grade q ∈ ["HD", "D", "C", "P", "Z"] := by
  unfold assign_grade
  split_ifs <;> simp

theorem appendGroup_keys
    (G : List (String × List (String × String × String × ℚ)))
    (k : String) (e : String × String × String × ℚ) :
    (appendGroup G k e).map (fun p => p.1) = G.map (fun p => p.1) := by
  induction G with
  | nil => rfl
  | cons g rest ih =>
      cases hb : (g.1 == k) with
      | true => simp [appendGroup, hb]
      | false => simp [appendGroup, hb, ih]

theorem findGroup_appendGroup_self
    {G : List (String × List (String × String × String × ℚ))}
    {k : String} {e : String × String × String × ℚ}
    (hk : k ∈ G.map (fun p => p.1)) :
    findGroup (appendGroup G k e) k = findGroup G k ++ [e] := by
  induction G with
  | nil => simp at hk
  | cons g rest ih =>
      cases hb : (g.1 == k) with
      | true => simp [appendGroup, hb, findGroup, List.find?_cons]
      | false =>
          have hk' : k ∈ rest.map (fun p => p.1) := by
            simp only [List.map_cons, List.mem_cons] at hk
            rcases hk with h | h
            · exact absurd (beq_iff_eq.mpr h.symm) (by simp [hb])
            · exact h
          simp only [appendGroup, hb, Bool.false_eq_true, if_false]
          simp only [findGroup, List.find?_cons, hb]
          exact ih hk'

theorem findGroup_appendGroup_other
    {G : List (String × List (String × String × String × ℚ))}
    {k g : String} {e : String × String × String × ℚ} (hg : g ≠ k) :
    findGroup (appendGroup G k e) g = findGroup G g := by
  induction G with
  | nil => rfl
  | cons q rest ih =>
      cases hb : (q.1 == k) with
      | true =>
          have hq : q.1 = k := beq_iff_eq.mp hb
          have hbg : (q.1 == g) = false :=
            beq_eq_false_iff_ne.mpr (fun h => hg (h.symm.trans hq))
          simp [appendGroup, hb, findGroup, List.find?_cons, hbg]
      | false =>
          cases hbg : (q.1 == g) with
          | true =>
              simp [appendGroup, hb, findGroup, List.find?_cons, hbg]
          | false =>
              simp only [appendGroup, hb, Bool.false_eq_true, if_false]
              simp only [findGroup, List.find?_cons, hbg]
              exact ih

theorem findGroup_emptyGroups (g : String) : findGroup emptyGroups g = [] := by
  unfold findGroup
  rcases hf : emptyGroups.find? (fun p => p.1 == g) with _ | p
  · rw [hf]
    rfl
  · rw [hf]
    have hm := List.mem_of_find?_eq_some hf
    simp [emptyGroups] at hm
    rcases hm with h | h | h | h | h <;> simp [h]

theorem group_fold_keys (data : Store)
    (G : List (String × List (String × String × String × ℚ))) :
    (data.foldl
      (fun groups p =>
        appendGroup groups (assign_grade (calculate_average_mark p.2))
          (gradeEntry p.2)) G).map (fun p => p.1) = G.map (fun p => p.1) := by
  induction data generalizing G with
  | nil => rfl
  | cons p rest ih => rw [List.foldl_cons, ih, appendGroup_keys]

theorem group_fold (data : Store)
    (G : List (String × List (String × String × String × ℚ)))
    (hG : ∀ q : ℚ, assign_grade q ∈ G.map (fun p => p.1)) (g : String) :
    findGroup
      (data.foldl
        (fun groups p =>
          appendGroup groups (assign_grade (calculate_average_mark p.2))
            (gradeEntry p.2)) G) g =
    findGroup G g ++
      (data.filter (fun p =>
        assign_grade (calculate_average_mark p.2) == g)).map
          (fun p => gradeEntry p.2) := by
  induction data generalizing G with
  | nil => simp
  | cons p rest ih =>
      have hG' : ∀ q : ℚ, assign_grade q ∈
          (appendGroup G (assign_grade (calculate_average_mark p.2))
            (gradeEntry p.2)).map (fun x => x.1) := by
        intro q
        rw [appendGroup_keys]
        exact hG q
      rw [List.foldl_cons, ih _ hG']
      by_cases hgk : assign_grade (calculate_average_mark p.2) = g
      · rw [← hgk, findGroup_appendGroup_self (hG _)]
        simp [List.filter_cons, hgk]
      · rw [findGroup_appendGroup_other (fun h => hgk h.symm)]
        have hb : (assign_grade (calculate_average_mark p.2) == g) = false :=
          beq_eq_false_iff_ne.mpr hgk
        simp [List.filter_cons, hb]

theorem avg_regrade (f : String → String) (st : Student) :
    calculate_average_mark
      { st with subjects :=
          st.subjects.map (fun s => { s with grade := f s.grade }) } =
    calculate_average_mark st := by
  have hfun : ((fun s => (s.mark : ℚ)) ∘
      (fun s : SubjectInfo => { s with grade := f s.grade })) =
      (fun s : SubjectInfo => (s.mark : ℚ)) := rfl
  unfold calculate_average_mark
  cases st.subjects with
  | nil => simp
  | cons a l => simp [List.map_map, hfun]

theorem gradeEntry_regrade (f : String → String) (st : Student) :
    gradeEntry
      { st with subjects :=
          st.subjects.map (fun s => { s with grade := f s.grade }) } =
    gradeEntry st := by
  unfold gradeEntry
  rw [avg_regrade]

/-- Claim C8: the grouping result always has exactly the five grades
HD, D, C, P, Z as keys in that order (even when empty); the bucket of a
grade holds exactly the entries of the students whose recomputed
average-mark grade is that grade; and rewriting every stored per-subject
grade leaves the grouping unchanged (the per-subject grades are never
consulted). -/
theorem group_by_grade_spec :
    ∀ (data : Store) (f : String → String),
      (group_students_by_grade data).map (fun p => p.1) =
        ["HD", "D", "C", "P", "Z"] ∧
      (∀ g : String, findGroup (group_students_by_grade data) g =
        (data.filter (fun p =>
          assign_grade (calculate_average_mark p.2) == g)).map
            (fun p => gradeEntry p.2)) ∧
      group_students_by_grade (mapSubjectGrades f data) =
        group_students_by_grade data := by
  intro data f
  have hkeys : emptyGroups.map (fun p => p.1) = ["HD", "D", "C", "P", "Z"] := rfl
  refine ⟨?_, ?_, ?_⟩
  · unfold group_students_by_grade
    rw [group_fold_keys, hkeys]
  · intro g
    unfold group_students_by_grade
    rw [group_fold data emptyGroups
      (fun q => by rw [hkeys]; exact assign_grade_mem q) g,
      findGroup_emptyGroups]
    rfl
  · unfold group_students_by_grade mapSubjectGrades
    rw [List.foldl_map]
    apply List.foldl_ext
    intro groups p _
    simp only []
    rw [avg_regrade, gradeEntry_regrade]

/-! ## Claim C9: removal by student id -/

theorem storeErase_mem_keys {data : Store} {e : String} {p : String × Student}
    (hk : (storeKeys data).Nodup) (hp : p ∈ storeErase data e) :
    p ∈ data ∧ p.1 ≠ e := by
  induction data with
  | nil => simp [storeErase] at hp
  | cons q rest ih =>
      simp only [storeKeys, List.map_cons, List.nodup_cons] at hk
      obtain ⟨hq, hrest⟩ := hk
      cases hb : (q.1 == e) with
      | true =>
          have hqe : q.1 = e := beq_iff_eq.mp hb
          simp only [storeErase, hb, if_true] at hp
          refine ⟨List.mem_cons_of_mem _ hp, fun hpe => ?_⟩
          exact hq (by
            rw [hqe, ← hpe]
            exact List.mem_map_of_mem (fun x => x.1) hp)
      | false =>
          simp only [storeErase, hb, Bool.false_eq_true, if_false,
            List.mem_cons] at hp
          rcases hp with h | h
          · exact ⟨by simp [h], by
              rw [h]
              exact fun he => by simp [he] at hb⟩
          · obtain ⟨h1, h2⟩ := ih hrest h
            exact ⟨List.mem_cons_of_mem _ h1, h2⟩

/-- Claim C9, amended: removing a nonexistent id returns false and leaves
the record set unchanged; removing an existing id returns true and
removes the first record (in key order) with that id — and when email
keys are distinct (the dict invariant) and student ids are globally
unique (the §3 invariant) the resulting set has no record with that id. -/
theorem remove_student_contract :
    ∀ (data : Store) (sid : String),
      ((¬ ∃ p ∈ data, p.2.id = sid) → remove_student data sid = (false, data)) ∧
      ((∃ p ∈ data, p.2.id = sid) → (remove_student data sid).1 = true) ∧
      ((storeKeys data).Nodup → (storeIds data).Nodup →
        ∀ p ∈ (remove_student data sid).2, p.2.id ≠ sid) := by
  intro data sid
  refine ⟨?_, ?_, ?_⟩
  · intro hne
    have hnil : data.filter (fun p => p.2.id == sid) = [] := by
      rw [List.filter_eq_nil_iff]
      intro a ha
      simp only [beq_iff_eq]
      exact fun h => hne ⟨a, ha, h⟩
    simp [remove_student, hnil]
  · rintro ⟨p, hp, hid⟩
    have hmem : p ∈ data.filter (fun p => p.2.id == sid) :=
      List.mem_filter.mpr ⟨hp, beq_iff_eq.mpr hid⟩
    unfold remove_student
    split
    · next heq =>
        exfalso
        rw [List.map_eq_nil_iff] at heq
        rw [heq] at hmem
        simp at hmem
    · rfl
  · intro hk hi p hp
    unfold remove_student at hp
    split at hp
    · next heq =>
        rw [List.map_eq_nil_iff, List.filter_eq_nil_iff] at heq
        have := heq p hp
        simpa using this
    · next e rest heq =>
        obtain ⟨hpd, hpne⟩ := storeErase_mem_keys hk hp
        intro hpid
        rcases hfil : data.filter (fun p => p.2.id == sid) with _ | ⟨q, qs⟩
        · rw [hfil] at heq
          simp at heq
        · rw [hfil] at heq
          simp only [List.map_cons, List.cons.injEq] at heq
          obtain ⟨hqe, _⟩ := heq
          have hqf : q ∈ data.filter (fun p => p.2.id == sid) := by
            rw [hfil]
            exact List.mem_cons_self q qs
          obtain ⟨hqd, hqid⟩ := List.mem_filter.mp hqf
          have hqid2 : q.2.id = sid := beq_iff_eq.mp hqid
          unfold storeIds at hi
          have hpq : p = q :=
            List.inj_on_of_nodup_map hi hpd hqd (by rw [hpid, hqid2])
          exact hpne (by rw [hpq]; exact hqe)

/-- Witness for C9: both branches at concrete stores — a missing id is
refused with no change, and removing an existing id leaves no record with
that id. -/
theorem remove_student_contract_witness :
    remove_student cexStore "999999" = (false, cexStore) ∧
    (remove_student cexStore "000001").1 = true ∧
    (∀ p ∈ (remove_student cexStore "000001").2, p.2.id ≠ "000001") := by
  refine ⟨?_, ?_, ?_⟩
  · exact (remove_student_contract cexStore "999999").1 (by decide)
  · exact (remove_student_contract cexStore "000001").2.1 (by decide)
  · exact (remove_student_contract cexStore "000001").2.2 (by decide) (by decide)

/-- Claim C9 counterexample: on a record set where two records share the
id `"000001"` (reachable via the stale-reference resurrection of C10),
`remove_student` returns true yet a key still maps to a student with that
id — the claim's "no key maps to a student with that id" fails. -/
theorem remove_student_duplicate_id :
    (remove_student dupIdStore "000001").1 = true ∧
    storeFind (remove_student dupIdStore "000001").2 "c.d@university.com" =
      some ⟨"000001", "Carl", "c.d@university.com", "Abcde123", []⟩ ∧
    (⟨"000001", "Carl", "c.d@university.com", "Abcde123", []⟩ : Student).id =
      "000001" := by
  refine ⟨by decide, by decide, by decide⟩

/-! ## Claim C10: mutating operations resurrect removed students -/

/-- Claim C10: when the caller's student object is no longer keyed in the
record set, a password change with a valid password, a successful
enrollment, and a successful subject drop all proceed without failure and
write the student back under its email key, re-inserting the record: none
of these operations checks that the student still exists in the store. -/
theorem stale_student_resurrection :
    ∀ (data : Store) (st : Student) (newpw sid : String)
      (cands : List (String × Int)),
      st.email ∉ storeKeys data →
      (_is_valid_password newpw = true →
        change_student_password data st newpw =
          ({ st with password := newpw },
            data ++ [(st.email, { st with password := newpw })]) ∧
        storeFind (change_student_password data st newpw).2 st.email =
          some { st with password := newpw }) ∧
      (∀ (info : SubjectInfo) (st2 : Student),
        enroll_subject_student st cands = some (info, st2) →
        enroll_subject data st cands =
          (some info, st2, data ++ [(st.email, st2)]) ∧
        storeFind (enroll_subject data st cands).2.2 st.email = some st2) ∧
      (st.subjects.any (fun s => s.id == sid) = true →
        remove_subject data st sid =
          (drop_subject st sid, data ++ [(st.email, drop_subject st sid)]) ∧
        storeFind (remove_subject data st sid).2 st.email =
          some (drop_subject st sid)) := by
  intro data st newpw sid cands hnm
  refine ⟨?_, ?_, ?_⟩
  · intro hpw
    have heq : change_student_password data st newpw =
        ({ st with password := newpw },
          data ++ [(st.email, { st with password := newpw })]) := by
      simp [change_student_password, hpw,
        storeInsert_of_not_mem data st.email _ hnm]
    refine ⟨heq, ?_⟩
    rw [heq, ← storeInsert_of_not_mem data st.email _ hnm]
    exact storeFind_insert data st.email _
  · intro info st2 henr
    have hml := (enroll_subject_student_some henr).1
    have heq : enroll_subject data st cands =
        (some info, st2, data ++ [(st.email, st2)]) := by
      simp [enroll_subject, henr, hml,
        storeInsert_of_not_mem data st.email st2 hnm]
    refine ⟨heq, ?_⟩
    rw [heq, ← storeInsert_of_not_mem data st.email st2 hnm]
    exact storeFind_insert data st.email st2
  · intro hany
    have heq : remove_subject data st sid =
        (drop_subject st sid, data ++ [(st.email, drop_subject st sid)]) := by
      simp [remove_subject, hany, drop_subject,
        storeInsert_of_not_mem data st.email _ hnm]
    refine ⟨heq, ?_⟩
    rw [heq, ← storeInsert_of_not_mem data st.email _ hnm]
    exact storeFind_insert data st.email _

/-- Witness for C10: changing the password of a student absent from the
empty store silently re-inserts the record. -/
theorem stale_student_resurrection_witness :
    change_student_password [] cexStudent "Newpass123" =
      ({ cexStudent with password := "Newpass123" },
        [("a.b@university.com", { cexStudent with password := "Newpass123" })]) := by
  have h := (stale_student_resurrection [] cexStudent "Newpass123" "001" []
    (by decide)).1 (by decide)
  simpa using h.1

end UniSys
